import Mathlib

/-!
Verification of the telnet codec core (parser, formatter, Q-Method
negotiation state machine, and the read facade) against its
natural-language specification.

Bytes are modelled as `Nat` (the Rust code uses `u8`; every constant the
code compares against is below 256, and no arithmetic on byte values is
performed, so `Nat` is a faithful carrier).  Rust slices `&buf[a..b]`
are modelled as `(buf.take b).drop a`.
-/

set_option maxHeartbeats 1000000

/-! ## Byte constants (src/byte.rs) -/

def BYTE_IAC : Nat := 255
def BYTE_DONT : Nat := 254
def BYTE_DO : Nat := 253
def BYTE_WONT : Nat := 252
def BYTE_WILL : Nat := 251
def BYTE_SB : Nat := 250
def BYTE_SE : Nat := 240

/-! ## Telnet options (src/option.rs)

The `telnet_options!` macro invocation lists the named options with their
bytes; `parse` maps a byte to the option (falling back to
`UnknownOption`), `as_byte` maps an option back to its byte. -/

inductive TelnetOption where
  | TransmitBinary | Echo | Reconnection | SuppressGoAhead
  | ApproxMessageSizeNeg | Status | TimingMark | RCTE
  | OutLineWidth | OutPageSize | NAOCRD | NAOHTS | NAOHTD | NAOFFD
  | NAOVTS | NAOVTD | NAOLFD | XASCII | Logout | ByteMacro | DET
  | SUPDUP | SUPDUPOutput | SNDLOC | TTYPE | EOR | TUID | OUTMRK
  | TTYLOC | OPT3270Regime | X3PAD | NAWS | TSPEED | LFLOW | Linemode
  | XDISPLOC | Environment | Authentication | Encryption | NewEnvironment
  | MSSP | Compress | Compress2 | ZMP | EXOPL
  | UnknownOption (byte : Nat)
  deriving DecidableEq, Repr

def TelnetOption.parse (byte : Nat) : TelnetOption :=
  match byte with
  | 0 => .TransmitBinary
  | 1 => .Echo
  | 2 => .Reconnection
  | 3 => .SuppressGoAhead
  | 4 => .ApproxMessageSizeNeg
  | 5 => .Status
  | 6 => .TimingMark
  | 7 => .RCTE
  | 8 => .OutLineWidth
  | 9 => .OutPageSize
  | 10 => .NAOCRD
  | 11 => .NAOHTS
  | 12 => .NAOHTD
  | 13 => .NAOFFD
  | 14 => .NAOVTS
  | 15 => .NAOVTD
  | 16 => .NAOLFD
  | 17 => .XASCII
  | 18 => .Logout
  | 19 => .ByteMacro
  | 20 => .DET
  | 21 => .SUPDUP
  | 22 => .SUPDUPOutput
  | 23 => .SNDLOC
  | 24 => .TTYPE
  | 25 => .EOR
  | 26 => .TUID
  | 27 => .OUTMRK
  | 28 => .TTYLOC
  | 29 => .OPT3270Regime
  | 30 => .X3PAD
  | 31 => .NAWS
  | 32 => .TSPEED
  | 33 => .LFLOW
  | 34 => .Linemode
  | 35 => .XDISPLOC
  | 36 => .Environment
  | 37 => .Authentication
  | 38 => .Encryption
  | 39 => .NewEnvironment
  | 70 => .MSSP
  | 85 => .Compress
  | 86 => .Compress2
  | 93 => .ZMP
  | 255 => .EXOPL
  | byte => .UnknownOption byte

def TelnetOption.as_byte (o : TelnetOption) : Nat :=
  match o with
  | .TransmitBinary => 0
  | .Echo => 1
  | .Reconnection => 2
  | .SuppressGoAhead => 3
  | .ApproxMessageSizeNeg => 4
  | .Status => 5
  | .TimingMark => 6
  | .RCTE => 7
  | .OutLineWidth => 8
  | .OutPageSize => 9
  | .NAOCRD => 10
  | .NAOHTS => 11
  | .NAOHTD => 12
  | .NAOFFD => 13
  | .NAOVTS => 14
  | .NAOVTD => 15
  | .NAOLFD => 16
  | .XASCII => 17
  | .Logout => 18
  | .ByteMacro => 19
  | .DET => 20
  | .SUPDUP => 21
  | .SUPDUPOutput => 22
  | .SNDLOC => 23
  | .TTYPE => 24
  | .EOR => 25
  | .TUID => 26
  | .OUTMRK => 27
  | .TTYLOC => 28
  | .OPT3270Regime => 29
  | .X3PAD => 30
  | .NAWS => 31
  | .TSPEED => 32
  | .LFLOW => 33
  | .Linemode => 34
  | .XDISPLOC => 35
  | .Environment => 36
  | .Authentication => 37
  | .Encryption => 38
  | .NewEnvironment => 39
  | .MSSP => 70
  | .Compress => 85
  | .Compress2 => 86
  | .ZMP => 93
  | .EXOPL => 255
  | .UnknownOption byte => byte

/-! ## Negotiation actions (src/negotiation.rs) -/

inductive NegotiationAction where
  | Will | Wont | Do | Dont
  deriving DecidableEq, Repr

def NegotiationAction.to_byte (a : NegotiationAction) : Nat :=
  match a with
  | .Will => BYTE_WILL
  | .Wont => BYTE_WONT
  | .Do => BYTE_DO
  | .Dont => BYTE_DONT

/-! ## Parser events (used by src/parse.rs)

The `Event` enum consumed by `parse.rs` is declared in a module that is
not among the source files; its constructors are reconstructed from
every use in `src/parse.rs` and its tests: `Data(&[u8])`,
`UnknownIAC(u8)`, `Negotiation(action, option)`,
`Subnegotiation(option, Box<[u8]>)`, `Error(String)`. -/

inductive PEvent where
  | Data (bytes : List Nat)
  | UnknownIAC (byte : Nat)
  | Negotiation (action : NegotiationAction) (opt : TelnetOption)
  | Subnegotiation (opt : TelnetOption) (bytes : List Nat)
  | Error (msg : String)
  deriving DecidableEq, Repr

/-- Rust slice `&buffer[a..b]`. -/
def rSlice (buffer : List Nat) (a b : Nat) : List Nat :=
  (buffer.take b).drop a

/-! ## The parser (src/parse.rs) -/

inductive ParsingState where
  | NormalData (dataStart : Nat)
  | IAC
  | SB
  | SBData (opt : TelnetOption) (data : List Nat) (iac : Bool)
  | Negotiation (action : NegotiationAction)
  deriving DecidableEq, Repr

/-- Model of `Parser::parse_byte`: processes `buffer[index]`, returning the new
parser state and the (optional) event emitted for this byte. -/
def parseByte (buffer : List Nat) (index : Nat) (s : ParsingState) :
    ParsingState × Option PEvent :=
  let byte := buffer.getD index 0
  match s with
  | .NormalData dataStart =>
      if byte = BYTE_IAC then
        (.IAC, if dataStart < index then
                 some (.Data (rSlice buffer dataStart index)) else none)
      else
        (.NormalData dataStart, none)
  | .IAC =>
      if byte = BYTE_WILL then (.Negotiation .Will, none)
      else if byte = BYTE_WONT then (.Negotiation .Wont, none)
      else if byte = BYTE_DO then (.Negotiation .Do, none)
      else if byte = BYTE_DONT then (.Negotiation .Dont, none)
      else if byte = BYTE_SB then (.SB, none)
      else if byte = BYTE_IAC then (.NormalData index, none)
      else (.NormalData (index + 1), some (.UnknownIAC byte))
  | .Negotiation action =>
      (.NormalData (index + 1),
       some (.Negotiation action (TelnetOption.parse byte)))
  | .SB =>
      (.SBData (TelnetOption.parse byte) [] false, none)
  | .SBData opt data iac =>
      if iac then
        if byte = BYTE_SE then
          (.NormalData (index + 1), some (.Subnegotiation opt data))
        else if byte = BYTE_IAC then
          (.SBData opt (data ++ [BYTE_IAC]) false, none)
        else
          (.SBData opt data false,
           some (.Error s!"Unexpected byte after IAC inside SB: {byte}"))
      else
        if byte = BYTE_IAC then
          (.SBData opt data true, none)
        else
          (.SBData opt (data ++ [byte]) false, none)

/-- The per-byte loop of `Parser::parse`
(`(0..buffer.len()).filter_map(|i| self.parse_byte(buffer, i))`),
written with the remaining byte count as structural fuel; it is always
called with `fuel = buffer.length - index`. -/
def parseLoop (buffer : List Nat) :
    Nat → Nat → ParsingState → List PEvent × ParsingState
  | 0, _, s => ([], s)
  | fuel + 1, index, s =>
      let (s', ev) := parseByte buffer index s
      let (evs, sf) := parseLoop buffer fuel (index + 1) s'
      (ev.toList ++ evs, sf)

/-- Model of `Parser::parse`: runs the loop over the whole buffer, then flushes a
trailing data run and resets the state when it ends in `NormalData`. -/
def Parser.parse (s : ParsingState) (buffer : List Nat) :
    List PEvent × ParsingState :=
  let (events, sf) := parseLoop buffer buffer.length 0 s
  match sf with
  | .NormalData dataStart =>
      (events ++
        (if dataStart < buffer.length then
           [.Data (rSlice buffer dataStart buffer.length)] else []),
       .NormalData 0)
  | sf => (events, sf)

/-! ## An index-free view of the parser

`ParsingState.NormalData` refers to a start index inside the current
buffer; for reasoning across buffers we use an equivalent machine whose
`Normal` state carries the pending data run itself.  `parse_sim` below
proves that `Parser.parse` is this machine, byte for byte. -/

inductive BState where
  | Normal (pending : List Nat)
  | IAC
  | SB
  | SBData (opt : TelnetOption) (data : List Nat) (iac : Bool)
  | Negotiation (action : NegotiationAction)
  deriving DecidableEq, Repr

def stepB (bs : BState) (byte : Nat) : BState × List PEvent :=
  match bs with
  | .Normal pending =>
      if byte = BYTE_IAC then
        (.IAC, if pending = [] then [] else [.Data pending])
      else
        (.Normal (pending ++ [byte]), [])
  | .IAC =>
      if byte = BYTE_WILL then (.Negotiation .Will, [])
      else if byte = BYTE_WONT then (.Negotiation .Wont, [])
      else if byte = BYTE_DO then (.Negotiation .Do, [])
      else if byte = BYTE_DONT then (.Negotiation .Dont, [])
      else if byte = BYTE_SB then (.SB, [])
      else if byte = BYTE_IAC then (.Normal [BYTE_IAC], [])
      else (.Normal [], [.UnknownIAC byte])
  | .Negotiation action =>
      (.Normal [], [.Negotiation action (TelnetOption.parse byte)])
  | .SB =>
      (.SBData (TelnetOption.parse byte) [] false, [])
  | .SBData opt data iac =>
      if iac then
        if byte = BYTE_SE then
          (.Normal [], [.Subnegotiation opt data])
        else if byte = BYTE_IAC then
          (.SBData opt (data ++ [BYTE_IAC]) false, [])
        else
          (.SBData opt data false,
           [.Error s!"Unexpected byte after IAC inside SB: {byte}"])
      else
        if byte = BYTE_IAC then
          (.SBData opt data true, [])
        else
          (.SBData opt (data ++ [byte]) false, [])

def runB (bs : BState) : List Nat → BState × List PEvent
  | [] => (bs, [])
  | b :: rest =>
      let (bs', evs) := stepB bs b
      let (bsf, evs') := runB bs' rest
      (bsf, evs ++ evs')

/-- End-of-buffer behaviour: flush a pending data run and reset. -/
def parseB (bs : BState) (bytes : List Nat) : List PEvent × BState :=
  let (bsf, evs) := runB bs bytes
  match bsf with
  | .Normal pending =>
      (evs ++ (if pending = [] then [] else [.Data pending]), .Normal [])
  | bsf => (evs, bsf)

/-- Map an index-free state back to the parser state it stands for at
the start of a `parse` call. -/
def fromB : BState → ParsingState
  | .Normal _ => .NormalData 0
  | .IAC => .IAC
  | .SB => .SB
  | .SBData opt data iac => .SBData opt data iac
  | .Negotiation a => .Negotiation a

/-- States that can be carried into a `parse` call: a `Normal` state has
an empty pending run. -/
def entryB : BState → Prop
  | .Normal pending => pending = []
  | _ => True

/-- The simulation relation at byte position `i` of the buffer. -/
def corr (buffer : List Nat) (i : Nat) : ParsingState → BState → Prop
  | .NormalData ds, .Normal p => ds ≤ i ∧ p = rSlice buffer ds i
  | .IAC, .IAC => True
  | .SB, .SB => True
  | .SBData o d f, .SBData o' d' f' => o = o' ∧ d = d' ∧ f = f'
  | .Negotiation a, .Negotiation a' => a = a'
  | _, _ => False

/-! ## Event normalization: merging adjacent Data events -/

/-- Prepend an event, merging it into a leading `Data` event. -/
def mergeInto (e : PEvent) (r : List PEvent) : List PEvent :=
  match e, r with
  | .Data a, .Data b :: r => .Data (a ++ b) :: r
  | e, r => e :: r

/-- Coalesce maximal runs of adjacent `Data` events into one. -/
def mergeData : List PEvent → List PEvent
  | [] => []
  | e :: l => mergeInto e (mergeData l)

/-! ## Decomposing `parseB` -/

/-- The events the end-of-buffer flush adds. -/
def flushEvents : BState → List PEvent
  | .Normal p => if p = [] then [] else [.Data p]
  | _ => []

/-- The state carried to the next call. -/
def resetB : BState → BState
  | .Normal _ => .Normal []
  | bs => bs

/-! ## The formatter (src/format.rs) -/

/-- Logical content of IAC-escaping: every `0xFF` byte doubled. -/
def escapeIAC : List Nat → List Nat
  | [] => []
  | b :: rest =>
      if b = BYTE_IAC then b :: b :: escapeIAC rest else b :: escapeIAC rest

/-- The indexed loop of `format::data` (src/format.rs lines 59-75): at
an IAC it pushes `&buffer[start..=i]` and sets `start = i`, so the IAC
byte is covered by two consecutive slices; the loop-exit case is the
trailing `if start < buffer.len()` push. -/
def formatDataLoop (buffer : List Nat) : Nat → Nat → Nat → List (List Nat)
  | 0, _, start =>
      if start < buffer.length then [rSlice buffer start buffer.length] else []
  | fuel + 1, i, start =>
      if buffer.getD i 0 = BYTE_IAC then
        rSlice buffer start (i + 1) :: formatDataLoop buffer fuel (i + 1) i
      else
        formatDataLoop buffer fuel (i + 1) start

/-- Model of `format::data`: the sequence of sub-slices whose concatenation is
the IAC-doubled buffer. -/
def format.data (buffer : List Nat) : List (List Nat) :=
  formatDataLoop buffer buffer.length 0 0

/-- Model of `format::negotiation`: always the 3-byte frame. -/
def format.negotiation (action : NegotiationAction) (opt : TelnetOption) :
    List Nat :=
  [BYTE_IAC, action.to_byte, opt.as_byte]

/-- Model of `format::sub_negotiation`: `data(parameters)` appended to the
`IAC SB opt` header, then `IAC SE`. -/
def format.sub_negotiation (opt : TelnetOption) (parameters : List Nat) :
    List Nat :=
  ([BYTE_IAC, BYTE_SB, opt.as_byte] ++ (format.data parameters).flatten) ++
    [BYTE_IAC, BYTE_SE]

/-- The byte sequence `Telnet::subnegotiate` hands to its stream when
all three `write_all` calls succeed (src/lib.rs lines 381-398): the
`IAC SB opt` header, the payload written unmodified, then `IAC SE`. -/
def Telnet.subnegotiateBytes (opt : TelnetOption) (data : List Nat) :
    List Nat :=
  ([BYTE_IAC, BYTE_SB, opt.as_byte] ++ data) ++ [BYTE_IAC, BYTE_SE]

/-- Concatenation of the payloads of all `Data` events. -/
def dataContent : List PEvent → List Nat
  | [] => []
  | .Data d :: l => d ++ dataContent l
  | _ :: l => dataContent l

/-- Parser states reachable from the initial state by a sequence of
`parse` calls. -/
inductive ReachableParser : ParsingState → Prop where
  | init : ReachableParser (.NormalData 0)
  | step (s : ParsingState) (buffer : List Nat) :
      ReachableParser s → ReachableParser (Parser.parse s buffer).2

/-! ## The event type of src/event.rs -/

inductive TelnetEvent where
  | DataReceived (bytes : List Nat)
  | UnknownIAC (byte : Nat)
  | RemoteEnabled (opt : TelnetOption)
  | RemoteDisabled (opt : TelnetOption)
  | LocalShouldEnable (opt : TelnetOption)
  | LocalShouldDisable (opt : TelnetOption)
  | SBReceived (opt : TelnetOption) (bytes : List Nat)
  | NegotiationReceived (action : NegotiationAction) (opt : TelnetOption)
  | NeogitationSent (action : NegotiationAction) (opt : TelnetOption)
  | ItShouldNotBeHere (msg : String)
  | Error (msg : String)
  deriving DecidableEq, Repr

/-! ## Q-Method negotiation state machine (src/negotiation.rs)

`NegotiationSM` keeps a `HashMap<TelnetOption, OptState>` whose missing
entries read as `No`/`No`; it is modelled as a total function with that
default.  The observable effects of a transition are collected in order
as a list of outputs: `send` stands for the
`TelnetStream::send_negotiation` call (whose implementation is outside
the given sources), `event` for a `queue.push_event`. -/

inductive QState where
  | No | Yes | WantNoEmpty | WantNoOpposite | WantYesEmpty | WantYesOpposite
  deriving DecidableEq, Repr

structure OptState where
  us : QState
  him : QState
  deriving DecidableEq, Repr

structure NegotiationSM where
  map : TelnetOption → OptState

inductive SMOutput where
  | send (action : NegotiationAction) (opt : TelnetOption)
  | event (e : TelnetEvent)
  deriving DecidableEq, Repr

def NegotiationSM.new : NegotiationSM :=
  ⟨fun _ => ⟨.No, .No⟩⟩

def NegotiationSM.get_state (sm : NegotiationSM) (is_us : Bool)
    (opt : TelnetOption) : QState :=
  if is_us then (sm.map opt).us else (sm.map opt).him

def NegotiationSM.set_state (sm : NegotiationSM) (is_us : Bool)
    (opt : TelnetOption) (new_state : QState) : NegotiationSM :=
  ⟨fun o =>
    if o = opt then
      if is_us then { sm.map opt with us := new_state }
      else { sm.map opt with him := new_state }
    else sm.map o⟩

/-- Model of `NegotiationSM::receive_will` (src/negotiation.rs lines 52-84). -/
def NegotiationSM.receive_will (sm : NegotiationSM) (req_opt : TelnetOption)
    (is_remote_allowed : Bool) : NegotiationSM × List SMOutput :=
  match sm.get_state false req_opt with
  | .No =>
      if is_remote_allowed then
        (sm.set_state false req_opt .Yes,
         [.send .Do req_opt, .event (.RemoteEnabled req_opt)])
      else
        (sm, [.send .Dont req_opt])
  | .Yes => (sm, [])
  | .WantNoEmpty =>
      (sm.set_state false req_opt .No,
       [.event (.Error "DONT answered by WILL"),
        .event (.RemoteDisabled req_opt)])
  | .WantNoOpposite =>
      (sm.set_state false req_opt .Yes,
       [.event (.Error "DONT answered by WILL"),
        .event (.RemoteEnabled req_opt)])
  | .WantYesEmpty =>
      (sm.set_state false req_opt .Yes, [.event (.RemoteEnabled req_opt)])
  | .WantYesOpposite =>
      (sm.set_state false req_opt .WantNoEmpty, [.send .Dont req_opt])

/-! ## The Telnet facade (src/lib.rs)

The facade's `Event` and `Error` types: `Error` is src/error.rs
(re-exported as `TelnetError`); the facade `Event` is used by
src/lib.rs but its defining module is not among the sources.
Modelled from the spec: §3 lists its variants, with `TimedOut` and
`NoData` existing only at the read facade. -/

inductive SubnegotiationType where
  | Start | Data | End
  deriving DecidableEq, Repr

inductive TelnetError where
  | UnexpectedByte (b : Nat)
  | InternalQueueErr
  | NegotiationErr
  | SubnegotiationErr (s : SubnegotiationType)
  deriving DecidableEq, Repr

inductive LEvent where
  | Data (bytes : List Nat)
  | UnknownIAC (byte : Nat)
  | Negotiation (action : NegotiationAction) (opt : TelnetOption)
  | Subnegotiation (opt : TelnetOption) (bytes : List Nat)
  | Error (e : TelnetError)
  | TimedOut
  | NoData
  deriving DecidableEq, Repr

/-- The per-call state of `Telnet::process` (src/lib.rs lines 62-73);
it is local to each `process` call. -/
inductive ProcState where
  | NormalData
  | IAC
  | SB
  | SBData (opt : TelnetOption) (dataStart : Nat)
  | SBDataIAC (opt : TelnetOption) (dataStart : Nat)
  | Will | Wont | Do | Dont
  deriving DecidableEq, Repr

/-- The fields of `struct Telnet` the core logic touches (the stream is
passed in as explicit read results).  `buffer` and `process_buffer` are
fixed-capacity arrays modelled as lists whose length is the capacity. -/
structure Telnet where
  event_queue : List LEvent
  buffer : List Nat
  buffered_size : Nat
  process_buffer : List Nat
  process_buffered_size : Nat
  deriving DecidableEq, Repr

/-- Model of `Telnet::from_stream`: `buf_size` 0 is promoted to 1; both buffers
are allocated with the actual size. -/
def Telnet.from_stream (buf_size : Nat) : Telnet :=
  let actual_size := if buf_size = 0 then 1 else buf_size
  { event_queue := []
    buffer := List.replicate actual_size 0
    buffered_size := 0
    process_buffer := List.replicate actual_size 0
    process_buffered_size := 0 }

/-- Model of `Telnet::append_data_to_proc_buffer` (src/lib.rs lines 558-565):
copies `buffer[data_start..data_end]` into
`process_buffer[pbs..pbs+len]`.  `none` models the Rust panic when a
slice index is out of bounds (in particular when the copy does not fit
into `process_buffer`). -/
def Telnet.append_data_to_proc_buffer (t : Telnet) (data_start data_end : Nat) :
    Option Telnet :=
  let data_length := data_end - data_start
  let dst_start := t.process_buffered_size
  let dst_end := t.process_buffered_size + data_length
  if data_start ≤ data_end ∧ data_end ≤ t.buffer.length ∧
      dst_end ≤ t.process_buffer.length then
    some { t with
      process_buffer :=
        (t.process_buffer.take dst_start ++ rSlice t.buffer data_start data_end)
          ++ t.process_buffer.drop dst_end
      process_buffered_size := t.process_buffered_size + data_length }
  else none

/-- Model of `Telnet::copy_buffered_data` (src/lib.rs lines 567-581). -/
def Telnet.copy_buffered_data (t : Telnet) (data_start data_end : Nat) :
    Option (Telnet × List Nat) :=
  if t.process_buffered_size > 0 then
    match t.append_data_to_proc_buffer data_start data_end with
    | none => none
    | some t' =>
        some ({ t' with process_buffered_size := 0 },
              t'.process_buffer.take t'.process_buffered_size)
  else
    if data_start ≤ data_end ∧ data_end ≤ t.buffer.length then
      some (t, rSlice t.buffer data_start data_end)
    else none

/-- One iteration of the `while` loop in `Telnet::process`
(src/lib.rs lines 406-554) at index `current` with the loop-local
`state` and `data_start`; returns the updated connection, state and
`data_start`, or `none` for a panic. -/
def Telnet.processStep (t : Telnet) (current : Nat) (state : ProcState)
    (data_start : Nat) : Option (Telnet × ProcState × Nat) :=
  let byte := t.buffer.getD current 0
  match state with
  | .NormalData =>
      if byte = BYTE_IAC then
        if current > data_start then
          match t.copy_buffered_data data_start current with
          | none => none
          | some (t', data) =>
              some ({ t' with event_queue := t'.event_queue ++ [.Data data] },
                    .IAC, current)
        else
          some (t, .IAC, data_start)
      else if current = t.buffered_size - 1 then
        match t.copy_buffered_data data_start t.buffered_size with
        | none => none
        | some (t', data) =>
            some ({ t' with event_queue := t'.event_queue ++ [.Data data] },
                  .NormalData, data_start)
      else
        some (t, .NormalData, data_start)
  | .IAC =>
      if byte = BYTE_WILL then some (t, .Will, data_start)
      else if byte = BYTE_WONT then some (t, .Wont, data_start)
      else if byte = BYTE_DO then some (t, .Do, data_start)
      else if byte = BYTE_DONT then some (t, .Dont, data_start)
      else if byte = BYTE_SB then some (t, .SB, data_start)
      else if byte = BYTE_IAC then
        match t.append_data_to_proc_buffer data_start (current - 1) with
        | none => none
        | some t' =>
            if t'.process_buffered_size < t'.process_buffer.length then
              some ({ t' with
                process_buffer :=
                  t'.process_buffer.set t'.process_buffered_size BYTE_IAC
                process_buffered_size := t'.process_buffered_size + 1 },
                .NormalData, current + 1)
            else none
      else
        some ({ t with event_queue := t.event_queue ++ [.UnknownIAC byte] },
              .NormalData, current + 1)
  | .Will =>
      some ({ t with event_queue :=
          t.event_queue ++ [.Negotiation .Will (TelnetOption.parse byte)] },
        .NormalData, current + 1)
  | .Wont =>
      some ({ t with event_queue :=
          t.event_queue ++ [.Negotiation .Wont (TelnetOption.parse byte)] },
        .NormalData, current + 1)
  | .Do =>
      some ({ t with event_queue :=
          t.event_queue ++ [.Negotiation .Do (TelnetOption.parse byte)] },
        .NormalData, current + 1)
  | .Dont =>
      some ({ t with event_queue :=
          t.event_queue ++ [.Negotiation .Dont (TelnetOption.parse byte)] },
        .NormalData, current + 1)
  | .SB =>
      some (t, .SBData (TelnetOption.parse byte) (current + 1), data_start)
  | .SBData opt sb_data_start =>
      if byte = BYTE_IAC then
        some (t, .SBDataIAC opt sb_data_start, data_start)
      else
        some (t, .SBData opt sb_data_start, data_start)
  | .SBDataIAC opt sb_data_start =>
      if byte = BYTE_SE then
        match t.copy_buffered_data sb_data_start (current - 1) with
        | none => none
        | some (t', data) =>
            some ({ t' with event_queue :=
                t'.event_queue ++ [.Subnegotiation opt data] },
              .NormalData, current + 1)
      else if byte = BYTE_IAC then
        match t.append_data_to_proc_buffer sb_data_start (current - 1) with
        | none => none
        | some t' =>
            if t'.process_buffered_size < t'.process_buffer.length then
              some ({ t' with
                process_buffer :=
                  t'.process_buffer.set t'.process_buffered_size BYTE_IAC
                process_buffered_size := t'.process_buffered_size + 1 },
                .SBData opt (current + 1), data_start)
            else none
      else
        match ({ t with event_queue :=
            t.event_queue ++ [.Error (.UnexpectedByte byte)] }
              : Telnet).append_data_to_proc_buffer sb_data_start (current - 1) with
        | none => none
        | some t' => some (t', .SBData opt (current + 1), data_start)

/-- The `while current < self.buffered_size` loop of `Telnet::process`,
with the remaining iteration count as structural fuel (`current` rises
by one per iteration, so `fuel = buffered_size - current`). -/
def Telnet.processLoop : Nat → Telnet → Nat → ProcState → Nat → Option Telnet
  | 0, t, _, _, _ => some t
  | fuel + 1, t, current, state, data_start =>
      if current < t.buffered_size then
        match t.processStep current state data_start with
        | none => none
        | some (t', state', ds') =>
            Telnet.processLoop fuel t' (current + 1) state' ds'
      else some t

/-- Model of `Telnet::process`: starts every call at index 0 in `NormalData`
with `data_start = 0` (the process state is not carried across calls;
only `process_buffer`/`process_buffered_size` persist). -/
def Telnet.process (t : Telnet) : Option Telnet :=
  Telnet.processLoop t.buffered_size t 0 .NormalData 0

/-! ## The read facade -/

inductive IOErrorKind where
  | WouldBlock | TimedOut | Other (code : Nat)
  deriving DecidableEq, Repr

/-- Model of an `std::io::Error`, modelled by the only part the facade inspects. -/
structure IOError where
  kind : IOErrorKind
  deriving DecidableEq, Repr

/-- The outcome of the one `stream.read(&mut self.buffer)` call a read
facade performs: the bytes delivered, or the I/O error raised. -/
inductive ReadResult where
  | ok (bytes : List Nat)
  | err (e : IOError)
  deriving DecidableEq, Repr

/-- Store a successful read's bytes in the buffer prefix and record the
count (`self.buffered_size = self.stream.read(&mut self.buffer)?`). -/
def Telnet.storeRead (t : Telnet) (bytes : List Nat) : Telnet :=
  { t with buffer := bytes ++ t.buffer.drop bytes.length
           buffered_size := bytes.length }

/-- Take the front event
(`take_event().unwrap_or(Event::Error(InternalQueueErr))`). -/
def Telnet.takeOrErr (t : Telnet) : Telnet × LEvent :=
  match t.event_queue with
  | [] => (t, .Error .InternalQueueErr)
  | ev :: rest => ({ t with event_queue := rest }, ev)

/-- Model of `Telnet::read_timeout` (src/lib.rs lines 246-269), as a function of
the transport read's outcome.  The two `set_*` stream calls are taken to
succeed (their failures are propagated verbatim by `?` and are outside
this model); `none` models a panic inside `process`. -/
def Telnet.read_timeout (t : Telnet) (readRes : ReadResult) :
    Option (Telnet × Except IOError LEvent) :=
  if t.event_queue.isEmpty then
    match readRes with
    | .err e =>
        if e.kind = .WouldBlock ∨ e.kind = .TimedOut then
          some (t, .ok .TimedOut)
        else
          some (t, .error e)
    | .ok bytes =>
        match (t.storeRead bytes).process with
        | none => none
        | some t2 =>
            some ((t2.takeOrErr).1, .ok (t2.takeOrErr).2)
  else
    some ((t.takeOrErr).1, .ok (t.takeOrErr).2)

/-- Model of `Telnet::read_nonblocking` (src/lib.rs lines 288-309): identical
except that only `WouldBlock` maps to `Event::NoData`. -/
def Telnet.read_nonblocking (t : Telnet) (readRes : ReadResult) :
    Option (Telnet × Except IOError LEvent) :=
  if t.event_queue.isEmpty then
    match readRes with
    | .err e =>
        if e.kind = .WouldBlock then
          some (t, .ok .NoData)
        else
          some (t, .error e)
    | .ok bytes =>
        match (t.storeRead bytes).process with
        | none => none
        | some t2 =>
            some ((t2.takeOrErr).1, .ok (t2.takeOrErr).2)
  else
    some ((t.takeOrErr).1, .ok (t.takeOrErr).2)

/-- Reading a 2-byte `IAC IAC` escape with nothing else in the buffer
(the transport delivers exactly `[0xFF, 0xFF]`). -/
def Telnet.readIacIac (t : Telnet) : Option Telnet :=
  (t.read_nonblocking (.ok [255, 255])).map Prod.fst

/-! ## Theorems -/

example :
    (Parser.parse (.NormalData 0) [1, 2, 0xFF, 0xFF, 3, 4]).1 =
      [.Data [1, 2], .Data [0xFF, 3, 4]] := by decide

example :
    (Parser.parse (.NormalData 0) [1, 0xFF, 0xFB, 0x01, 2]).1 =
      [.Data [1], .Negotiation .Will .Echo, .Data [2]] := by decide

example :
    (Parser.parse (.NormalData 0) [0xFF, 0xFA, 24, 1, 0xFF, 0xFF, 3, 0xFF, 0xF0]).1 =
      [.Subnegotiation .TTYPE [1, 0xFF, 3]] := by decide

example :
    (Parser.parse (.NormalData 0) [0xFF, 0x01, 0x41]).1 =
      [.UnknownIAC 1, .Data [0x41]] := by decide

theorem rSlice_same (buffer : List Nat) (a : Nat) : rSlice buffer a a = [] := by
  apply List.drop_eq_nil_of_le
  simp [List.length_take]

theorem rSlice_length (buffer : List Nat) (a b : Nat) (hb : b ≤ buffer.length) :
    (rSlice buffer a b).length = b - a := by
  simp [rSlice, List.length_take, Nat.min_eq_left hb]

theorem rSlice_eq_nil_iff (buffer : List Nat) (a b : Nat) (hb : b ≤ buffer.length) :
    rSlice buffer a b = [] ↔ b ≤ a := by
  rw [← List.length_eq_zero, rSlice_length buffer a b hb]
  omega

theorem rSlice_snoc (buffer : List Nat) (a i : Nat) (ha : a ≤ i)
    (hi : i < buffer.length) :
    rSlice buffer a (i + 1) = rSlice buffer a i ++ [buffer[i]] := by
  unfold rSlice
  rw [List.take_succ, List.getElem?_eq_getElem hi]
  rw [List.drop_append_of_le_length]
  · simp
  · simp [List.length_take]; omega

theorem stepSim (buffer : List Nat) (i : Nat) (s : ParsingState) (bs : BState)
    (hi : i < buffer.length) (hc : corr buffer i s bs) :
    (parseByte buffer i s).2.toList = (stepB bs (buffer.getD i 0)).2 ∧
    corr buffer (i + 1) (parseByte buffer i s).1 (stepB bs (buffer.getD i 0)).1 := by
  have hgetD : buffer.getD i 0 = buffer[i] := List.getD_eq_getElem buffer 0 hi
  have hsome : buffer[i]? = some buffer[i] := List.getElem?_eq_getElem hi
  cases s with
  | NormalData ds =>
    cases bs with
    | Normal p =>
      obtain ⟨hds, hp⟩ := hc
      subst hp
      by_cases hb : buffer[i] = 255
      · have hnil : rSlice buffer ds i = [] ↔ i ≤ ds :=
          rSlice_eq_nil_iff buffer ds i hi.le
        by_cases hlt : ds < i
        · have hpne : ¬ rSlice buffer ds i = [] := by rw [hnil]; omega
          simp [parseByte, stepB, BYTE_IAC, hsome, hb, hlt, hpne, corr]
        · have hpe : rSlice buffer ds i = [] := by rw [hnil]; omega
          simp [parseByte, stepB, BYTE_IAC, hsome, hb, hlt, hpe, corr]
      · refine ⟨by simp [parseByte, stepB, BYTE_IAC, hsome, hb], ?_⟩
        simp only [parseByte, stepB, BYTE_IAC, BYTE_WILL, BYTE_WONT, BYTE_DO, BYTE_DONT, BYTE_SB, BYTE_SE, hgetD, hb, if_neg, not_false_iff]
        refine ⟨by omega, ?_⟩
        rw [rSlice_snoc buffer ds i hds hi]
    | IAC => exact absurd hc (by simp [corr])
    | SB => exact absurd hc (by simp [corr])
    | SBData o d f => exact absurd hc (by simp [corr])
    | Negotiation a => exact absurd hc (by simp [corr])
  | IAC =>
    cases bs with
    | Normal p => exact absurd hc (by simp [corr])
    | IAC =>
      by_cases h1 : buffer[i] = 251
      · simp [parseByte, stepB, hsome, BYTE_IAC, BYTE_WILL, BYTE_WONT, BYTE_DO, BYTE_DONT, BYTE_SB, BYTE_SE, h1, corr]
      · by_cases h2 : buffer[i] = 252
        · simp [parseByte, stepB, hsome, BYTE_IAC, BYTE_WILL, BYTE_WONT, BYTE_DO, BYTE_DONT, BYTE_SB, BYTE_SE, h1, h2, corr]
        · by_cases h3 : buffer[i] = 253
          · simp [parseByte, stepB, hsome, BYTE_IAC, BYTE_WILL, BYTE_WONT, BYTE_DO, BYTE_DONT, BYTE_SB, BYTE_SE, h1, h2, h3, corr]
          · by_cases h4 : buffer[i] = 254
            · simp [parseByte, stepB, hsome, BYTE_IAC, BYTE_WILL, BYTE_WONT, BYTE_DO, BYTE_DONT, BYTE_SB, BYTE_SE, h1, h2, h3, h4, corr]
            · by_cases h5 : buffer[i] = 250
              · simp [parseByte, stepB, hsome, BYTE_IAC, BYTE_WILL, BYTE_WONT, BYTE_DO, BYTE_DONT, BYTE_SB, BYTE_SE, h1, h2, h3, h4, h5, corr]
              · by_cases h6 : buffer[i] = 255
                · refine ⟨by simp [parseByte, stepB, hsome, BYTE_IAC, BYTE_WILL, BYTE_WONT, BYTE_DO, BYTE_DONT, BYTE_SB, BYTE_SE, h1, h2, h3, h4, h5, h6], ?_⟩
                  simp only [parseByte, stepB, BYTE_IAC, BYTE_WILL, BYTE_WONT, BYTE_DO, BYTE_DONT, BYTE_SB, BYTE_SE, hgetD, h1, h2, h3, h4, h5, h6,
                    if_neg, if_pos, not_false_iff, corr]
                  refine ⟨by omega, ?_⟩
                  rw [rSlice_snoc buffer i i (Nat.le_refl i) hi, rSlice_same, h6]
                  simp
                · refine ⟨by simp [parseByte, stepB, hsome, BYTE_IAC, BYTE_WILL, BYTE_WONT, BYTE_DO, BYTE_DONT, BYTE_SB, BYTE_SE, h1, h2, h3, h4, h5, h6], ?_⟩
                  simp only [parseByte, stepB, BYTE_IAC, BYTE_WILL, BYTE_WONT, BYTE_DO, BYTE_DONT, BYTE_SB, BYTE_SE, hgetD, h1, h2, h3, h4, h5, h6,
                    if_neg, not_false_iff, corr]
                  exact ⟨Nat.le_refl _, (rSlice_same buffer (i + 1)).symm⟩
    | SB => exact absurd hc (by simp [corr])
    | SBData o d f => exact absurd hc (by simp [corr])
    | Negotiation a => exact absurd hc (by simp [corr])
  | SB =>
    cases bs with
    | SB => simp [parseByte, stepB, hsome, BYTE_IAC, BYTE_WILL, BYTE_WONT, BYTE_DO, BYTE_DONT, BYTE_SB, BYTE_SE, corr]
    | Normal p => exact absurd hc (by simp [corr])
    | IAC => exact absurd hc (by simp [corr])
    | SBData o d f => exact absurd hc (by simp [corr])
    | Negotiation a => exact absurd hc (by simp [corr])
  | SBData o d f =>
    cases bs with
    | SBData o' d' f' =>
      obtain ⟨ho, hd, hf⟩ := hc
      subst ho; subst hd; subst hf
      cases f with
      | false =>
        by_cases hb : buffer[i] = 255
        · simp [parseByte, stepB, hsome, BYTE_IAC, BYTE_WILL, BYTE_WONT, BYTE_DO, BYTE_DONT, BYTE_SB, BYTE_SE, hb, corr]
        · simp [parseByte, stepB, hsome, BYTE_IAC, BYTE_WILL, BYTE_WONT, BYTE_DO, BYTE_DONT, BYTE_SB, BYTE_SE, hb, corr]
      | true =>
        by_cases hse : buffer[i] = 240
        · refine ⟨by simp [parseByte, stepB, hsome, BYTE_IAC, BYTE_WILL, BYTE_WONT, BYTE_DO, BYTE_DONT, BYTE_SB, BYTE_SE, hse], ?_⟩
          simp only [parseByte, stepB, BYTE_IAC, BYTE_WILL, BYTE_WONT, BYTE_DO, BYTE_DONT, BYTE_SB, BYTE_SE, hgetD, hse, if_pos, corr]
          exact ⟨Nat.le_refl _, (rSlice_same buffer (i + 1)).symm⟩
        · by_cases hb : buffer[i] = 255
          · simp [parseByte, stepB, hsome, BYTE_IAC, BYTE_WILL, BYTE_WONT, BYTE_DO, BYTE_DONT, BYTE_SB, BYTE_SE, hse, hb, corr]
          · simp [parseByte, stepB, hsome, BYTE_IAC, BYTE_WILL, BYTE_WONT, BYTE_DO, BYTE_DONT, BYTE_SB, BYTE_SE, hse, hb, corr]
    | Normal p => exact absurd hc (by simp [corr])
    | IAC => exact absurd hc (by simp [corr])
    | SB => exact absurd hc (by simp [corr])
    | Negotiation a => exact absurd hc (by simp [corr])
  | Negotiation a =>
    cases bs with
    | Negotiation a' =>
      have ha : a = a' := hc
      subst ha
      refine ⟨by simp [parseByte, stepB, hsome, BYTE_IAC, BYTE_WILL, BYTE_WONT, BYTE_DO, BYTE_DONT, BYTE_SB, BYTE_SE], ?_⟩
      simp only [parseByte, stepB, corr]
      exact ⟨Nat.le_refl _, (rSlice_same buffer (i + 1)).symm⟩
    | Normal p => exact absurd hc (by simp [corr])
    | IAC => exact absurd hc (by simp [corr])
    | SB => exact absurd hc (by simp [corr])
    | SBData o d f => exact absurd hc (by simp [corr])

theorem parseLoop_succ (buffer : List Nat) (fuel i : Nat) (s : ParsingState) :
    parseLoop buffer (fuel + 1) i s =
      ((parseByte buffer i s).2.toList ++
         (parseLoop buffer fuel (i + 1) (parseByte buffer i s).1).1,
       (parseLoop buffer fuel (i + 1) (parseByte buffer i s).1).2) := by
  conv_lhs => rw [parseLoop]

theorem runB_cons (bs : BState) (b : Nat) (rest : List Nat) :
    runB bs (b :: rest) =
      ((runB (stepB bs b).1 rest).1,
       (stepB bs b).2 ++ (runB (stepB bs b).1 rest).2) := by
  conv_lhs => rw [runB]

theorem loopSim (buffer : List Nat) :
    ∀ (fuel i : Nat) (s : ParsingState) (bs : BState),
      fuel + i = buffer.length → corr buffer i s bs →
      (parseLoop buffer fuel i s).1 = (runB bs (buffer.drop i)).2 ∧
      corr buffer buffer.length (parseLoop buffer fuel i s).2
        (runB bs (buffer.drop i)).1 := by
  intro fuel
  induction fuel with
  | zero =>
    intro i s bs hlen hc
    have hi : i = buffer.length := by omega
    subst hi
    rw [List.drop_eq_nil_of_le (Nat.le_refl _)]
    exact ⟨rfl, hc⟩
  | succ fuel ih =>
    intro i s bs hlen hc
    have hi : i < buffer.length := by omega
    have hg : buffer.getD i 0 = buffer[i] := List.getD_eq_getElem buffer 0 hi
    have hdrop : buffer.drop i = buffer[i] :: buffer.drop (i + 1) :=
      List.drop_eq_getElem_cons hi
    obtain ⟨hev, hc'⟩ := stepSim buffer i s bs hi hc
    rw [hg] at hev hc'
    obtain ⟨ih1, ih2⟩ := ih (i + 1) (parseByte buffer i s).1
      (stepB bs buffer[i]).1 (by omega) hc'
    rw [hdrop, runB_cons, parseLoop_succ]
    exact ⟨by rw [hev, ih1], ih2⟩

/-- Theorem: `Parser.parse` and the index-free machine agree on every buffer,
whenever the starting state is one that can be carried across calls. -/
theorem parse_sim (bs : BState) (buffer : List Nat) (hbs : entryB bs) :
    (Parser.parse (fromB bs) buffer).1 = (parseB bs buffer).1 ∧
    (Parser.parse (fromB bs) buffer).2 = fromB (parseB bs buffer).2 ∧
    entryB (parseB bs buffer).2 := by
  have hc0 : corr buffer 0 (fromB bs) bs := by
    cases bs with
    | Normal p =>
      have hp : p = [] := hbs
      subst hp
      exact ⟨Nat.le_refl 0, (rSlice_same buffer 0).symm⟩
    | IAC => trivial
    | SB => trivial
    | SBData o d f => exact ⟨rfl, rfl, rfl⟩
    | Negotiation a => rfl
  obtain ⟨h1, h2⟩ := loopSim buffer buffer.length 0 (fromB bs) bs (by omega) hc0
  rw [List.drop_zero] at h1 h2
  rcases hpl : parseLoop buffer buffer.length 0 (fromB bs) with ⟨events, sf⟩
  rcases hrb : runB bs buffer with ⟨bsf, evs⟩
  rw [hpl, hrb] at h1 h2
  simp only at h1 h2
  unfold Parser.parse parseB
  rw [hpl, hrb]
  subst h1
  cases sf with
  | NormalData ds =>
    cases bsf with
    | Normal p =>
      obtain ⟨hds, hp⟩ := h2
      subst hp
      have hiff : rSlice buffer ds buffer.length = [] ↔ buffer.length ≤ ds :=
        rSlice_eq_nil_iff buffer ds buffer.length (Nat.le_refl _)
      by_cases hlt : ds < buffer.length
      · have : ¬ rSlice buffer ds buffer.length = [] := by rw [hiff]; omega
        simp [hlt, this, fromB, entryB]
      · have : rSlice buffer ds buffer.length = [] := by rw [hiff]; omega
        simp [hlt, this, fromB, entryB]
    | IAC => exact absurd h2 (by simp [corr])
    | SB => exact absurd h2 (by simp [corr])
    | SBData o d f => exact absurd h2 (by simp [corr])
    | Negotiation a => exact absurd h2 (by simp [corr])
  | IAC =>
    cases bsf with
    | IAC => simp [fromB, entryB]
    | Normal p => exact absurd h2 (by simp [corr])
    | SB => exact absurd h2 (by simp [corr])
    | SBData o d f => exact absurd h2 (by simp [corr])
    | Negotiation a => exact absurd h2 (by simp [corr])
  | SB =>
    cases bsf with
    | SB => simp [fromB, entryB]
    | Normal p => exact absurd h2 (by simp [corr])
    | IAC => exact absurd h2 (by simp [corr])
    | SBData o d f => exact absurd h2 (by simp [corr])
    | Negotiation a => exact absurd h2 (by simp [corr])
  | SBData o d f =>
    cases bsf with
    | SBData o' d' f' =>
      obtain ⟨ho, hd, hf⟩ := h2
      subst ho; subst hd; subst hf
      simp [fromB, entryB]
    | Normal p => exact absurd h2 (by simp [corr])
    | IAC => exact absurd h2 (by simp [corr])
    | SB => exact absurd h2 (by simp [corr])
    | Negotiation a => exact absurd h2 (by simp [corr])
  | Negotiation a =>
    cases bsf with
    | Negotiation a' =>
      have ha : a = a' := h2
      subst ha
      simp [fromB, entryB]
    | Normal p => exact absurd h2 (by simp [corr])
    | IAC => exact absurd h2 (by simp [corr])
    | SB => exact absurd h2 (by simp [corr])
    | SBData o d f => exact absurd h2 (by simp [corr])

theorem mergeData_data_data (a b : List Nat) (l : List PEvent) :
    mergeData (.Data a :: .Data b :: l) = mergeData (.Data (a ++ b) :: l) := by
  show mergeInto (.Data a) (mergeInto (.Data b) (mergeData l)) =
    mergeInto (.Data (a ++ b)) (mergeData l)
  rcases h : mergeData l with _ | ⟨e', r⟩
  · simp [mergeInto]
  · cases e' <;> simp [mergeInto, List.append_assoc]

theorem mergeData_append_congr (x y₁ y₂ : List PEvent)
    (h : mergeData y₁ = mergeData y₂) :
    mergeData (x ++ y₁) = mergeData (x ++ y₂) := by
  induction x with
  | nil => simpa using h
  | cons e x ih =>
      simp only [List.cons_append, mergeData]
      exact congrArg (mergeInto e) ih

theorem parseB_fst (bs : BState) (bytes : List Nat) :
    (parseB bs bytes).1 = (runB bs bytes).2 ++ flushEvents (runB bs bytes).1 := by
  unfold parseB
  rcases h : runB bs bytes with ⟨bsf, evs⟩
  cases bsf <;> simp [flushEvents]

theorem parseB_snd (bs : BState) (bytes : List Nat) :
    (parseB bs bytes).2 = resetB (runB bs bytes).1 := by
  unfold parseB
  rcases h : runB bs bytes with ⟨bsf, evs⟩
  cases bsf <;> simp [resetB]

theorem runB_normal_cons_ne (q : List Nat) (b : Nat) (B : List Nat)
    (hb : ¬ b = 255) :
    runB (.Normal q) (b :: B) = runB (.Normal (q ++ [b])) B := by
  rw [runB_cons]
  simp [stepB, BYTE_IAC, hb]

theorem runB_normal_cons_iac (q : List Nat) (B : List Nat) :
    runB (.Normal q) (255 :: B) =
      ((runB .IAC B).1,
       (if q = [] then [] else [.Data q]) ++ (runB .IAC B).2) := by
  rw [runB_cons]
  simp [stepB, BYTE_IAC]

/-- A non-empty pending run `p` flushed before the remaining input is,
up to Data-merging, the same as carrying `p` into the remaining input. -/
theorem mergeM (B : List Nat) :
    ∀ (p q : List Nat), ¬ p = [] →
      mergeData (.Data p :: (parseB (.Normal q) B).1) =
      mergeData ((parseB (.Normal (p ++ q)) B).1) := by
  induction B with
  | nil =>
    intro p q hp
    by_cases hq : q = []
    · subst hq
      simp [parseB_fst, runB, flushEvents, hp]
    · have hpq : ¬ p ++ q = [] := by simp [hq]
      simp only [parseB_fst, runB, flushEvents, if_neg hq, if_neg hpq,
        List.nil_append]
      exact mergeData_data_data p q []
  | cons b B ih =>
    intro p q hp
    by_cases hb : b = 255
    · subst hb
      have hpq : ¬ p ++ q = [] := by simp [hp]
      simp only [parseB_fst, runB_normal_cons_iac, if_neg hpq]
      by_cases hq : q = []
      · subst hq
        simp
      · simp only [if_neg hq, List.append_assoc, List.cons_append,
          List.nil_append]
        exact mergeData_data_data p q _
    · have hq1 : (parseB (.Normal q) (b :: B)).1 =
          (parseB (.Normal (q ++ [b])) B).1 := by
        rw [parseB_fst, parseB_fst, runB_normal_cons_ne q b B hb]
      have hq2 : (parseB (.Normal (p ++ q)) (b :: B)).1 =
          (parseB (.Normal (p ++ (q ++ [b]))) B).1 := by
        rw [parseB_fst, parseB_fst, runB_normal_cons_ne (p ++ q) b B hb,
          List.append_assoc]
      rw [hq1, hq2]
      exact ih p (q ++ [b]) hp

theorem runB_append (bs : BState) (A B : List Nat) :
    runB bs (A ++ B) =
      ((runB (runB bs A).1 B).1,
       (runB bs A).2 ++ (runB (runB bs A).1 B).2) := by
  induction A generalizing bs with
  | nil => simp [runB]
  | cons a A ih =>
      simp only [List.cons_append, runB_cons, ih, List.append_assoc]

/-- Split/concatenate agreement for the index-free machine. -/
theorem parseB_split (bytes : List Nat) (k : Nat) :
    mergeData ((parseB (.Normal []) (bytes.take k)).1 ++
      (parseB (parseB (.Normal []) (bytes.take k)).2 (bytes.drop k)).1) =
    mergeData ((parseB (.Normal []) bytes).1) := by
  have hsplit : bytes.take k ++ bytes.drop k = bytes := List.take_append_drop k bytes
  rcases hA : runB (.Normal []) (bytes.take k) with ⟨sA, eA⟩
  have h2 : (parseB (.Normal []) (bytes.take k)).2 = resetB sA := by
    rw [parseB_snd, hA]
  have h1 : (parseB (.Normal []) (bytes.take k)).1 = eA ++ flushEvents sA := by
    rw [parseB_fst, hA]
  have hwhole : (parseB (.Normal []) bytes).1 =
      eA ++ (parseB sA (bytes.drop k)).1 := by
    conv_lhs => rw [← hsplit]
    rw [parseB_fst, runB_append, hA]
    simp only [parseB_fst, List.append_assoc]
  rw [h1, h2, hwhole, List.append_assoc]
  apply mergeData_append_congr
  cases sA with
  | Normal p =>
    by_cases hp : p = []
    · subst hp
      simp [flushEvents, resetB]
    · simp only [flushEvents, resetB, if_neg hp, List.cons_append,
        List.nil_append]
      have hm := mergeM (bytes.drop k) p [] hp
      simpa using hm
  | IAC => simp [flushEvents, resetB]
  | SB => simp [flushEvents, resetB]
  | SBData o d f => simp [flushEvents, resetB]
  | Negotiation a => simp [flushEvents, resetB]

/-- C1: Parsing is resumable: for every buffer `B` and split point `k`,
parsing `B.take k` and then `B.drop k` with the carried state yields the
same event sequence as parsing `B` at once, up to merging adjacent
`Data` events (a data run straddling the split is delivered in two
pieces whose concatenation is the unsplit `Data` event). -/
theorem C1_parse_resumable (B : List Nat) (k : Nat) :
    mergeData ((Parser.parse (.NormalData 0) (B.take k)).1 ++
      (Parser.parse (Parser.parse (.NormalData 0) (B.take k)).2 (B.drop k)).1) =
    mergeData ((Parser.parse (.NormalData 0) B).1) := by
  have h0 : entryB (.Normal []) := rfl
  have e1 := (parse_sim (.Normal []) (B.take k) h0).1
  have s1 := (parse_sim (.Normal []) (B.take k) h0).2.1
  have ent1 := (parse_sim (.Normal []) (B.take k) h0).2.2
  have e2 := (parse_sim ((parseB (.Normal []) (B.take k)).2) (B.drop k) ent1).1
  have e3 := (parse_sim (.Normal []) B h0).1
  have hfrom : fromB (.Normal []) = .NormalData 0 := rfl
  rw [hfrom] at e1 s1 e3
  rw [e1, s1, e2, e3]
  exact parseB_split B k

theorem formatDataLoop_join (buffer : List Nat) :
    ∀ fuel i start, fuel + i = buffer.length → start ≤ i →
      (formatDataLoop buffer fuel i start).flatten =
        rSlice buffer start i ++ escapeIAC (buffer.drop i) := by
  intro fuel
  induction fuel with
  | zero =>
    intro i start hlen hsi
    have hi : i = buffer.length := by omega
    subst hi
    rw [List.drop_eq_nil_of_le (Nat.le_refl _)]
    by_cases h : start < buffer.length
    · simp [formatDataLoop, h, escapeIAC]
    · have hse : start = buffer.length := by omega
      subst hse
      simp [formatDataLoop, h, rSlice_same, escapeIAC]
  | succ fuel ih =>
    intro i start hlen hsi
    have hi : i < buffer.length := by omega
    have hsome : buffer[i]? = some buffer[i] := List.getElem?_eq_getElem hi
    have hdrop : buffer.drop i = buffer[i] :: buffer.drop (i + 1) :=
      List.drop_eq_getElem_cons hi
    by_cases hb : buffer[i] = 255
    · rw [show formatDataLoop buffer (fuel + 1) i start =
          rSlice buffer start (i + 1) :: formatDataLoop buffer fuel (i + 1) i
        from by simp [formatDataLoop, hsome, hb, BYTE_IAC]]
      rw [show (rSlice buffer start (i + 1) ::
            formatDataLoop buffer fuel (i + 1) i).flatten =
          rSlice buffer start (i + 1) ++
            (formatDataLoop buffer fuel (i + 1) i).flatten from by simp]
      rw [ih (i + 1) i (by omega) (by omega), hdrop]
      rw [rSlice_snoc buffer start i hsi hi,
        rSlice_snoc buffer i i (Nat.le_refl i) hi, rSlice_same]
      simp [escapeIAC, hb, BYTE_IAC]
    · rw [show formatDataLoop buffer (fuel + 1) i start =
          formatDataLoop buffer fuel (i + 1) start
        from by simp [formatDataLoop, hsome, hb, BYTE_IAC]]
      rw [ih (i + 1) start (by omega) (by omega), hdrop]
      rw [rSlice_snoc buffer start i hsi hi]
      simp [escapeIAC, hb, BYTE_IAC]

/-- The concatenation of `format::data`'s slices doubles every IAC. -/
theorem format_data_join (buffer : List Nat) :
    (format.data buffer).flatten = escapeIAC buffer := by
  have h := formatDataLoop_join buffer buffer.length 0 0 (by omega) (Nat.le_refl 0)
  rw [format.data, h, rSlice_same]
  simp

theorem dataContent_append (x y : List PEvent) :
    dataContent (x ++ y) = dataContent x ++ dataContent y := by
  induction x with
  | nil => simp [dataContent]
  | cons e x ih => cases e <;> simp [dataContent, ih]

theorem runB_escape (s : List Nat) :
    ∀ p : List Nat,
      (∀ e ∈ (runB (.Normal p) (escapeIAC s)).2, ∃ d, e = .Data d) ∧
      ∃ q, (runB (.Normal p) (escapeIAC s)).1 = .Normal q ∧
        dataContent (runB (.Normal p) (escapeIAC s)).2 ++ q = p ++ s := by
  induction s with
  | nil =>
    intro p
    refine ⟨by simp [escapeIAC, runB], p, by simp [escapeIAC, runB], ?_⟩
    simp [escapeIAC, runB, dataContent]
  | cons b s ih =>
    intro p
    by_cases hb : b = 255
    · subst hb
      have hesc : escapeIAC (255 :: s) = 255 :: 255 :: escapeIAC s := by
        simp [escapeIAC, BYTE_IAC]
      have hstep : runB (.Normal p) (255 :: 255 :: escapeIAC s) =
          ((runB (.Normal [255]) (escapeIAC s)).1,
           (if p = [] then [] else [.Data p]) ++
             (runB (.Normal [255]) (escapeIAC s)).2) := by
        rw [runB_normal_cons_iac, runB_cons]
        simp [stepB, BYTE_IAC, BYTE_WILL, BYTE_WONT, BYTE_DO, BYTE_DONT, BYTE_SB]
      obtain ⟨hall, q, hq, hcontent⟩ := ih [255]
      rw [hesc, hstep]
      refine ⟨?_, q, hq, ?_⟩
      · intro e he
        rcases List.mem_append.mp he with h | h
        · by_cases hp : p = []
          · simp [hp] at h
          · simp [hp] at h
            exact ⟨p, h⟩
        · exact hall e h
      · rw [dataContent_append]
        by_cases hp : p = []
        · subst hp
          simpa [dataContent] using hcontent
        · simp only [if_neg hp, dataContent, List.append_assoc,
            List.nil_append]
          rw [hcontent]
          simp
    · have hesc : escapeIAC (b :: s) = b :: escapeIAC s := by
        simp [escapeIAC, BYTE_IAC, hb]
      rw [hesc, runB_normal_cons_ne p b (escapeIAC s) hb]
      obtain ⟨hall, q, hq, hcontent⟩ := ih (p ++ [b])
      refine ⟨hall, q, hq, ?_⟩
      rw [hcontent]
      simp

theorem parseB_escape (s : List Nat) :
    (∀ e ∈ (parseB (.Normal []) (escapeIAC s)).1, ∃ d, e = .Data d) ∧
    dataContent (parseB (.Normal []) (escapeIAC s)).1 = s := by
  obtain ⟨hall, q, hq, hcontent⟩ := runB_escape s []
  rw [parseB_fst, hq]
  simp only [List.nil_append] at hcontent
  constructor
  · intro e he
    rcases List.mem_append.mp he with h | h
    · exact hall e h
    · simp only [flushEvents] at h
      by_cases hqe : q = []
      · simp [hqe] at h
      · simp [hqe] at h
        exact ⟨q, h⟩
  · rw [dataContent_append]
    simp only [flushEvents]
    by_cases hqe : q = []
    · subst hqe
      simpa [dataContent] using hcontent
    · simpa [hqe, dataContent] using hcontent

/-- C2: Escape round-trip: feeding the concatenation of the slices
produced by `format::data(s)` to a fresh parser yields only `Data`
events, and the concatenation of their payloads is `s`. -/
theorem C2_escape_roundtrip (s : List Nat) :
    (∀ e ∈ (Parser.parse (.NormalData 0) (format.data s).flatten).1,
      ∃ d, e = .Data d) ∧
    dataContent (Parser.parse (.NormalData 0) (format.data s).flatten).1 = s := by
  have e1 := (parse_sim (.Normal []) (format.data s).flatten rfl).1
  have hfrom : fromB (.Normal []) = .NormalData 0 := rfl
  rw [hfrom] at e1
  rw [e1, format_data_join]
  exact parseB_escape s

theorem runB_sbdata_escape (p : List Nat) :
    ∀ (o : TelnetOption) (d : List Nat),
      runB (.SBData o d false) (escapeIAC p) = (.SBData o (d ++ p) false, []) := by
  induction p with
  | nil => intro o d; simp [escapeIAC, runB]
  | cons b p ih =>
    intro o d
    by_cases hb : b = 255
    · subst hb
      have hesc : escapeIAC (255 :: p) = 255 :: 255 :: escapeIAC p := by
        simp [escapeIAC, BYTE_IAC]
      rw [hesc, runB_cons]
      rw [show stepB (.SBData o d false) 255 = (.SBData o d true, [])
        from by simp [stepB, BYTE_IAC]]
      rw [runB_cons]
      rw [show stepB (.SBData o d true) 255 = (.SBData o (d ++ [255]) false, [])
        from by simp [stepB, BYTE_IAC, BYTE_SE]]
      rw [ih o (d ++ [255])]
      simp
    · have hesc : escapeIAC (b :: p) = b :: escapeIAC p := by
        simp [escapeIAC, BYTE_IAC, hb]
      rw [hesc, runB_cons]
      rw [show stepB (.SBData o d false) b = (.SBData o (d ++ [b]) false, [])
        from by simp [stepB, BYTE_IAC, hb]]
      rw [ih o (d ++ [b])]
      simp

/-- Parsing a well-formed `IAC SB opt escape(p) IAC SE` frame from a
fresh parser yields exactly one `Subnegotiation` event whose option is
re-parsed from the option byte and whose payload is `p`. -/
theorem parseB_sub_negotiation (ob : Nat) (p : List Nat) :
    parseB (.Normal []) (([255, 250, ob] ++ escapeIAC p) ++ [255, 240]) =
      ([.Subnegotiation (TelnetOption.parse ob) p], .Normal []) := by
  have hassoc : ([255, 250, ob] ++ escapeIAC p) ++ [255, 240] =
      255 :: 250 :: ob :: (escapeIAC p ++ [255, 240]) := by simp
  have h1 : runB (.Normal ([] : List Nat))
      (255 :: 250 :: ob :: (escapeIAC p ++ [255, 240])) =
      runB (.SBData (TelnetOption.parse ob) [] false)
        (escapeIAC p ++ [255, 240]) := by
    rw [runB_cons]
    rw [show stepB (.Normal ([] : List Nat)) 255 = (.IAC, []) from by
      simp [stepB, BYTE_IAC]]
    rw [runB_cons]
    rw [show stepB BState.IAC 250 = (.SB, []) from by
      simp [stepB, BYTE_IAC, BYTE_WILL, BYTE_WONT, BYTE_DO, BYTE_DONT, BYTE_SB]]
    rw [runB_cons]
    rw [show stepB BState.SB ob = (.SBData (TelnetOption.parse ob) [] false, [])
      from by simp [stepB]]
    simp
  have h2 : runB (.SBData (TelnetOption.parse ob) [] false)
      (escapeIAC p ++ [255, 240]) =
      (.Normal [], [.Subnegotiation (TelnetOption.parse ob) p]) := by
    rw [runB_append, runB_sbdata_escape p (TelnetOption.parse ob) []]
    simp only [List.nil_append]
    rw [runB_cons]
    rw [show stepB (.SBData (TelnetOption.parse ob) p false) 255 =
        (.SBData (TelnetOption.parse ob) p true, []) from by
      simp [stepB, BYTE_IAC]]
    rw [runB_cons]
    rw [show stepB (.SBData (TelnetOption.parse ob) p true) 240 =
        (.Normal [], [.Subnegotiation (TelnetOption.parse ob) p]) from by
      simp [stepB, BYTE_IAC, BYTE_SE]]
    simp [runB]
  rw [hassoc]
  unfold parseB
  rw [h1, h2]
  simp

theorem format_sub_negotiation_eq (o : TelnetOption) (p : List Nat) :
    format.sub_negotiation o p =
      ([255, 250, o.as_byte] ++ escapeIAC p) ++ [255, 240] := by
  rw [format.sub_negotiation, format_data_join]
  simp [BYTE_IAC, BYTE_SB, BYTE_SE]

/-- C4 (amended): parsing `format::sub_negotiation(o, p)` from a fresh
parser yields exactly one event, `Subnegotiation(o', p)` where
`o' = TelnetOption::parse(o.as_byte())`; the payload is always `p`, and
`o' = o` unless `o` is an `UnknownOption` carrying a registered code. -/
theorem C4_subnegotiation_roundtrip (o : TelnetOption) (p : List Nat) :
    (Parser.parse (.NormalData 0) (format.sub_negotiation o p)).1 =
      [.Subnegotiation (TelnetOption.parse o.as_byte) p] := by
  have e1 := (parse_sim (.Normal []) (format.sub_negotiation o p) rfl).1
  have hfrom : fromB (.Normal []) = .NormalData 0 := rfl
  rw [hfrom] at e1
  rw [e1, format_sub_negotiation_eq]
  rw [parseB_sub_negotiation o.as_byte p]

/-- C4 counterexample: for `o = UnknownOption 24` (byte 24 is the
registered TTYPE code) the single parsed event carries `TTYPE`, not
`UnknownOption 24`, so the round trip does not return `o` itself. -/
theorem C4_counterexample :
    (Parser.parse (.NormalData 0)
        (format.sub_negotiation (.UnknownOption 24) [])).1 ≠
      [.Subnegotiation (.UnknownOption 24) []] := by decide

/-- C3 (amended): `format::sub_negotiation(o, params)` is the header
`IAC SB opt`, the payload with every 0xFF doubled, then `IAC SE`;
`Telnet::subnegotiate(o, data)` writes the same header and trailer but
the payload bytes verbatim, without doubling. -/
theorem C3_subnegotiation_frames (o : TelnetOption) (params data : List Nat) :
    format.sub_negotiation o params =
      ([BYTE_IAC, BYTE_SB, o.as_byte] ++ escapeIAC params) ++
        [BYTE_IAC, BYTE_SE] ∧
    Telnet.subnegotiateBytes o data =
      ([BYTE_IAC, BYTE_SB, o.as_byte] ++ data) ++ [BYTE_IAC, BYTE_SE] := by
  refine ⟨?_, rfl⟩
  have h := format_sub_negotiation_eq o params
  simpa [BYTE_IAC, BYTE_SB, BYTE_SE] using h

/-- C3 counterexample: for the payload `[0xFF]` the bytes
`Telnet::subnegotiate` writes between header and trailer are not
IAC-doubled: the frame has six bytes, not the seven of the escaped
frame. -/
theorem C3_counterexample :
    Telnet.subnegotiateBytes .TTYPE [255] ≠
      ([BYTE_IAC, BYTE_SB, TelnetOption.TTYPE.as_byte] ++ escapeIAC [255]) ++
        [BYTE_IAC, BYTE_SE] := by decide

/-- C7 (amended): byte-level round trip holds for every byte
(`parse(b).as_byte() = b`), and the value-level round trip
`parse(as_byte(o)) = o` holds for every option that is not an
`UnknownOption`; an `UnknownOption(b)` survives exactly when `b` is not
a registered code. -/
theorem C7_option_roundtrip (b : Nat) (o : TelnetOption) :
    (TelnetOption.parse b).as_byte = b ∧
    ((∀ c, o ≠ .UnknownOption c) → TelnetOption.parse o.as_byte = o) := by
  constructor
  · unfold TelnetOption.parse
    split <;> rfl
  · intro ho
    cases o
    case UnknownOption c => exact absurd rfl (ho c)
    all_goals rfl

theorem C7_witness :
    (TelnetOption.parse 24).as_byte = 24 ∧
    TelnetOption.parse TelnetOption.TTYPE.as_byte = .TTYPE :=
  ⟨(C7_option_roundtrip 24 .TTYPE).1,
   (C7_option_roundtrip 24 .TTYPE).2 (fun _ h => TelnetOption.noConfusion h)⟩

/-- C7 counterexample: `UnknownOption 1` does not round-trip: byte 1 is
the registered Echo code, so `parse(as_byte(UnknownOption 1)) = Echo`. -/
theorem C7_counterexample :
    TelnetOption.parse (TelnetOption.UnknownOption 1).as_byte ≠
      TelnetOption.UnknownOption 1 := by decide

theorem stepB_data_nonempty (bs : BState) (b : Nat) (d : List Nat)
    (h : PEvent.Data d ∈ (stepB bs b).2) : ¬ d = [] := by
  cases bs with
  | Normal p =>
    by_cases hb : b = BYTE_IAC
    · by_cases hp : p = []
      · simp [stepB, hb, hp] at h
      · simp [stepB, hb, hp] at h
        rw [h]
        exact hp
    · simp [stepB, hb] at h
  | IAC =>
    unfold stepB at h
    split_ifs at h <;> simp at h
  | SB => simp [stepB] at h
  | Negotiation a => simp [stepB] at h
  | SBData o dd f =>
    cases f <;> (unfold stepB at h; split_ifs at h <;> simp at h)

theorem runB_data_nonempty (bytes : List Nat) :
    ∀ (bs : BState) (d : List Nat), PEvent.Data d ∈ (runB bs bytes).2 → ¬ d = [] := by
  induction bytes with
  | nil => intro bs d h; simp [runB] at h
  | cons b rest ih =>
    intro bs d h
    rw [runB_cons] at h
    rcases List.mem_append.mp h with h | h
    · exact stepB_data_nonempty bs b d h
    · exact ih _ d h

theorem parseB_data_nonempty (bs : BState) (bytes : List Nat) (d : List Nat)
    (h : PEvent.Data d ∈ (parseB bs bytes).1) : ¬ d = [] := by
  rw [parseB_fst] at h
  rcases List.mem_append.mp h with h | h
  · exact runB_data_nonempty bytes bs d h
  · cases hrun : (runB bs bytes).1 with
    | Normal p =>
      rw [hrun] at h
      by_cases hp : p = []
      · simp [flushEvents, hp] at h
      · simp [flushEvents, hp] at h
        rw [h]
        exact hp
    | IAC => rw [hrun] at h; simp [flushEvents] at h
    | SB => rw [hrun] at h; simp [flushEvents] at h
    | SBData o dd f => rw [hrun] at h; simp [flushEvents] at h
    | Negotiation a => rw [hrun] at h; simp [flushEvents] at h

theorem reachable_entry (s : ParsingState) (hs : ReachableParser s) :
    ∃ bs, entryB bs ∧ s = fromB bs := by
  induction hs with
  | init => exact ⟨.Normal [], rfl, rfl⟩
  | step s buffer _ ih =>
    obtain ⟨bs, hent, rfl⟩ := ih
    exact ⟨(parseB bs buffer).2, (parse_sim bs buffer hent).2.2,
      (parse_sim bs buffer hent).2.1⟩

/-- C8: from every parser state reachable from the initial state, every
`Data` event emitted while parsing any buffer has a non-empty payload. -/
theorem C8_no_empty_data (s : ParsingState) (buffer : List Nat) (d : List Nat)
    (hs : ReachableParser s) (hd : PEvent.Data d ∈ (Parser.parse s buffer).1) :
    ¬ d = [] := by
  obtain ⟨bs, hent, rfl⟩ := reachable_entry s hs
  rw [(parse_sim bs buffer hent).1] at hd
  exact parseB_data_nonempty bs buffer d hd

theorem C8_witness : ¬ ([65] : List Nat) = [] :=
  C8_no_empty_data (.NormalData 0) [65] [65] ReachableParser.init (by decide)

/-- C5: `receive_will` realises the seven-row table on the `him` side of
the requested option: the new `him` state and the outputs, in order, are
a function of the old `him` state and `is_remote_allowed` exactly as the
table states, and nothing else in the registry changes (the `us` side
and all other options are untouched). -/
theorem C5_receive_will_table (sm : NegotiationSM) (opt : TelnetOption)
    (allowed : Bool) :
    (((sm.receive_will opt allowed).1.get_state false opt,
      (sm.receive_will opt allowed).2) =
      match sm.get_state false opt, allowed with
      | .No, true => (.Yes, [.send .Do opt, .event (.RemoteEnabled opt)])
      | .No, false => (.No, [.send .Dont opt])
      | .Yes, _ => (.Yes, [])
      | .WantNoEmpty, _ =>
          (.No, [.event (.Error "DONT answered by WILL"),
                 .event (.RemoteDisabled opt)])
      | .WantNoOpposite, _ =>
          (.Yes, [.event (.Error "DONT answered by WILL"),
                  .event (.RemoteEnabled opt)])
      | .WantYesEmpty, _ => (.Yes, [.event (.RemoteEnabled opt)])
      | .WantYesOpposite, _ => (.WantNoEmpty, [.send .Dont opt])) ∧
    (∀ o, ((sm.receive_will opt allowed).1.map o).us = (sm.map o).us) ∧
    (∀ o, o ≠ opt → (sm.receive_will opt allowed).1.map o = sm.map o) := by
  refine ⟨?_, ?_, ?_⟩
  · have hget : ∀ q, (sm.set_state false opt q).get_state false opt = q := by
      intro q
      simp [NegotiationSM.get_state, NegotiationSM.set_state]
    cases hs : sm.get_state false opt <;> cases allowed <;>
      simp [NegotiationSM.receive_will, hs, hget]
  · intro o
    cases hs : sm.get_state false opt <;> cases allowed <;>
      by_cases ho : o = opt <;>
        simp [NegotiationSM.receive_will, NegotiationSM.set_state, hs, ho]
  · intro o ho
    cases hs : sm.get_state false opt <;> cases allowed <;>
      simp [NegotiationSM.receive_will, NegotiationSM.set_state, hs, ho]

theorem C5_witness :
    ((NegotiationSM.new.receive_will .TTYPE true).1.get_state false .TTYPE,
     (NegotiationSM.new.receive_will .TTYPE true).2) =
      (.Yes, [.send .Do .TTYPE, .event (.RemoteEnabled .TTYPE)]) ∧
    (NegotiationSM.new.receive_will .TTYPE true).1.map .Echo =
      NegotiationSM.new.map .Echo := by
  have h := C5_receive_will_table NegotiationSM.new .TTYPE true
  constructor
  · have h1 := h.1
    simpa [NegotiationSM.get_state, NegotiationSM.new] using h1
  · exact h.2.2 .Echo (by decide)

/-- C10: the pending escaped bytes in `process_buffer` are NOT bounded
by the demand of the claim: with `buf_size = 2`, two reads of `IAC IAC`
leave `process_buffered_size = 2` (the full capacity, nothing ever
drained it), and the third read's escape write
`process_buffer[process_buffered_size]` is out of bounds — the model
returns `none`, the Rust code panics. -/
theorem C10_process_buffer_overflow :
    ((Telnet.readIacIac (Telnet.from_stream 2)).bind Telnet.readIacIac).map
        Telnet.process_buffered_size = some 2 ∧
    (((Telnet.readIacIac (Telnet.from_stream 2)).bind Telnet.readIacIac).bind
        Telnet.readIacIac) = none := by decide

/-- C9: when the event queue is empty and the transport read fails,
`read_timeout` returns `Ok(TimedOut)` exactly for the kinds WouldBlock
and TimedOut and `read_nonblocking` returns `Ok(NoData)` exactly for
WouldBlock; any other error is returned unchanged; in all these cases
the connection state (event queue and all buffers) is returned
untouched, so the next call resumes from the same queue. -/
theorem C9_read_error_paths (t : Telnet) (e : IOError)
    (hq : t.event_queue = []) :
    Telnet.read_timeout t (.err e) =
      (if e.kind = .WouldBlock ∨ e.kind = .TimedOut
       then some (t, .ok .TimedOut) else some (t, .error e)) ∧
    Telnet.read_nonblocking t (.err e) =
      (if e.kind = .WouldBlock then some (t, .ok .NoData)
       else some (t, .error e)) := by
  constructor <;>
    simp [Telnet.read_timeout, Telnet.read_nonblocking, hq]

theorem C9_witness :
    Telnet.read_timeout (Telnet.from_stream 2) (.err ⟨.WouldBlock⟩) =
      some (Telnet.from_stream 2, .ok .TimedOut) ∧
    Telnet.read_nonblocking (Telnet.from_stream 2) (.err ⟨.TimedOut⟩) =
      some (Telnet.from_stream 2, .error ⟨.TimedOut⟩) := by
  constructor
  · have h := (C9_read_error_paths (Telnet.from_stream 2) ⟨.WouldBlock⟩ rfl).1
    simpa using h
  · have h := (C9_read_error_paths (Telnet.from_stream 2) ⟨.TimedOut⟩ rfl).2
    simpa using h

/-- C6 (amended): inside a sub-negotiation, an IAC followed by a byte
`b ∉ {SE, IAC}` makes the parser emit an error naming `b`, discard both
the pending IAC and `b` itself (`b` is NOT appended to the payload),
and remain in the sub-negotiation data state — the frame is not
aborted.  Both parsers conform: `Parser::parse_byte` keeps
`SBData(opt, data, false)` with `data` unchanged, and `Telnet::process`
continues in `SBData(opt, current + 1)`, skipping `b`. -/
theorem C6_sb_unexpected_byte
    (buffer : List Nat) (i : Nat) (o : TelnetOption) (d : List Nat)
    (t : Telnet) (o' : TelnetOption) (sbs ds current : Nat)
    (hse : ¬ buffer.getD i 0 = BYTE_SE) (hiac : ¬ buffer.getD i 0 = BYTE_IAC)
    (hse' : ¬ t.buffer.getD current 0 = BYTE_SE)
    (hiac' : ¬ t.buffer.getD current 0 = BYTE_IAC) :
    parseByte buffer i (.SBData o d true) =
      (.SBData o d false,
       some (.Error s!"Unexpected byte after IAC inside SB: {buffer.getD i 0}")) ∧
    Telnet.processStep t current (.SBDataIAC o' sbs) ds =
      (match ({ t with event_queue := t.event_queue ++
          [.Error (.UnexpectedByte (t.buffer.getD current 0))] }
            : Telnet).append_data_to_proc_buffer sbs (current - 1) with
       | none => none
       | some t' => some (t', .SBData o' (current + 1), ds)) := by
  constructor
  · simp only [parseByte]
    rw [if_neg hse, if_neg hiac]
    simp
  · simp only [Telnet.processStep]
    rw [if_neg hse', if_neg hiac']

theorem C6_witness :
    parseByte [66] 0 (.SBData .TTYPE [65] true) =
      (.SBData .TTYPE [65] false,
       some (.Error "Unexpected byte after IAC inside SB: 66")) ∧
    Telnet.processStep ⟨[], [66], 1, [0], 0⟩ 0 (.SBDataIAC .TTYPE 0) 0 =
      some (⟨[.Error (.UnexpectedByte 66)], [66], 1, [0], 0⟩,
            .SBData .TTYPE 1, 0) := by
  have h := C6_sb_unexpected_byte [66] 0 .TTYPE [65] ⟨[], [66], 1, [0], 0⟩
    .TTYPE 0 0 0 (by decide) (by decide) (by decide) (by decide)
  constructor
  · rw [h.1]
    decide
  · rw [h.2]
    decide

/-- C6 counterexample: in the frame
`IAC SB TTYPE 0x41 IAC 0x42 IAC SE` the byte `0x42` after the stray IAC
is dropped — the payload is `[0x41]`, not the `[0x41, 0x42]` that
"continues accumulating b into the payload" would give. -/
theorem C6_counterexample :
    (Parser.parse (.NormalData 0) [255, 250, 24, 65, 255, 66, 255, 240]).1 =
      [.Error "Unexpected byte after IAC inside SB: 66",
       .Subnegotiation .TTYPE [65]] ∧
    (Parser.parse (.NormalData 0) [255, 250, 24, 65, 255, 66, 255, 240]).1 ≠
      [.Error "Unexpected byte after IAC inside SB: 66",
       .Subnegotiation .TTYPE [65, 66]] := by decide

